import Mathlib

/-!
Shallow embedding of the training/backtesting core of scripts/train-rl-model.py.

Conventions used throughout:
- python floats are modelled as rationals; the pandas value NaN (missing) is
  modelled by Option (none = NaN).  Degenerate IEEE cases are embedded
  case-by-case where the source relies on them (see rsiOf below).
- dates (the pandas row index, used only as an opaque label on trades) are
  modelled as naturals.
- the two np.random.uniform draws per constructed state are modelled by an
  explicit noise stream parameter (bar index to pair of rationals).
- a python runtime fault (ZeroDivisionError) is modelled by Option none on the
  result of simulate_episode.
-/

set_option maxHeartbeats 1600000

/-- One raw OHLCV bar as fetched for the pipeline (a pandas row of the price
frame).  The date doubles as the row index label. -/
structure PriceBar where
  date : ℕ
  openPrice : ℚ
  high : ℚ
  low : ℚ
  close : ℚ
  volume : ℚ
deriving DecidableEq, Repr

/-- Close of bar i of a close series; positions past the end never arise for
rows the program builds (they are guarded by range bounds everywhere). -/
def closeAt (closes : List ℚ) (i : ℕ) : ℚ := closes.getD i 0

/-- df.Close.diff(): none at row 0 (pandas NaN), else the consecutive
difference. -/
def deltaAt (closes : List ℚ) (i : ℕ) : Option ℚ :=
  if i = 0 then none else some (closeAt closes i - closeAt closes (i - 1))

/-- delta.where(delta gt 0, 0): pandas where replaces rows failing the
condition by 0, and the NaN at row 0 compares false, so it is replaced by 0
as well. -/
def gainAt (closes : List ℚ) (i : ℕ) : ℚ :=
  match deltaAt closes i with
  | some d => if 0 < d then d else 0
  | none => 0

/-- (-delta).where(delta lt 0, 0) with the same where semantics. -/
def lossAt (closes : List ℚ) (i : ℕ) : ℚ :=
  match deltaAt closes i with
  | some d => if d < 0 then -d else 0
  | none => 0

/-- Close.rolling(window := w).mean(): defined from row w-1 on, the arithmetic
mean of the last w closes. -/
def smaAt (w : ℕ) (closes : List ℚ) (i : ℕ) : Option ℚ :=
  if w - 1 ≤ i then some ((∑ k ∈ Finset.range w, closeAt closes (i - k)) / (w : ℚ)) else none

/-- RSI = 100 - 100/(1 + gain/loss) under IEEE float semantics, embedded
case-by-case over the exact nonnegative rolling means: a zero loss average
with a positive gain average gives gain/loss = +inf hence RSI = 100; a zero
loss average with a zero gain average gives 0/0 = NaN which propagates
(none); otherwise the finite formula applies. -/
def rsiOf (g l : ℚ) : Option ℚ :=
  if l = 0 then (if g = 0 then none else some 100) else some (100 - 100 / (1 + g / l))

/-- df.RSI: the gain and loss columns have no NaN (see gainAt), so their
rolling(14) means are defined exactly from row 13 on; the map through
100 - 100/(1+rs) is rsiOf. -/
def rsiAt (closes : List ℚ) (i : ℕ) : Option ℚ :=
  if 13 ≤ i then
    rsiOf ((∑ k ∈ Finset.range 14, gainAt closes (i - k)) / 14)
      ((∑ k ∈ Finset.range 14, lossAt closes (i - k)) / 14)
  else none

/-- Close.ewm(span, adjust := false).mean() at row i: the recursion seeded at
row 0 with the close itself, smoothing alpha = 2/(span+1); total, no NaN. -/
def emaAt (a : ℚ) (closes : List ℚ) : ℕ → ℚ
  | 0 => closeAt closes 0
  | i + 1 => a * closeAt closes (i + 1) + (1 - a) * emaAt a closes i

/-- df.MACD = EMA(12) - EMA(26); alphas 2/13 and 2/27. -/
def macdAt (closes : List ℚ) (i : ℕ) : ℚ :=
  emaAt (2 / 13) closes i - emaAt (2 / 27) closes i

/-- Close.pct_change(): none at row 0, else the relative consecutive change. -/
def pctAt (closes : List ℚ) (i : ℕ) : Option ℚ :=
  if i = 0 then none else some ((closeAt closes i - closeAt closes (i - 1)) / closeAt closes (i - 1))

/-- pct value with the in-window NaN default 0 (only read where defined). -/
def pctD (closes : List ℚ) (i : ℕ) : ℚ := (pctAt closes i).getD 0

/-- df.Volatility = pct_change().rolling(20).std(): the window must contain 20
defined pct rows, i.e. rows i-19..i all at least 1, so defined from row 20 on.
The source value is the sample standard deviation (ddof 1); we record its
square, the sample variance, because the square root of a rational is
irrational in general: definedness (all that any claim or any consumer of the
field depends on; the decision rule never reads it) is preserved exactly, and
the recorded value determines the source value bijectively. -/
def volAt (closes : List ℚ) (i : ℕ) : Option ℚ :=
  if 20 ≤ i then
    some ((∑ k ∈ Finset.range 20,
      (pctD closes (i - k) - (∑ j ∈ Finset.range 20, pctD closes (i - j)) / 20) ^ 2) / 19)
  else none

/-- One row of the indicator-augmented frame handed to the simulator. -/
structure Row where
  date : ℕ
  close : ℚ
  volume : ℚ
  sma20 : Option ℚ
  sma50 : Option ℚ
  rsi : Option ℚ
  macd : Option ℚ
  volatility : Option ℚ
deriving DecidableEq, Repr

/-- Row i of the augmented frame built by calculate_technical_indicators. -/
def rowAt (bars : List PriceBar) (i : ℕ) : Row :=
  { date := ((bars.get? i).map PriceBar.date).getD 0
    close := closeAt (bars.map PriceBar.close) i
    volume := ((bars.get? i).map PriceBar.volume).getD 0
    sma20 := smaAt 20 (bars.map PriceBar.close) i
    sma50 := smaAt 50 (bars.map PriceBar.close) i
    rsi := rsiAt (bars.map PriceBar.close) i
    macd := some (macdAt (bars.map PriceBar.close) i)
    volatility := volAt (bars.map PriceBar.close) i }

/-- df.dropna() keeps a row iff no column of it is NaN; the raw OHLCV columns
are never NaN, so only the five derived columns decide. -/
def rowDefined (r : Row) : Bool :=
  r.sma20.isSome && r.sma50.isSome && r.rsi.isSome && r.macd.isSome && r.volatility.isSome

/-- calculate_technical_indicators: augment every row, then dropna. -/
def calculate_technical_indicators (bars : List PriceBar) : List Row :=
  ((List.range bars.length).map (rowAt bars)).filter rowDefined

/-- The per-bar decision state dict built by create_rl_state. -/
structure DecisionState where
  price : ℚ
  priceChange : ℚ
  volume : ℚ
  volatility : ℚ
  sma20 : Option ℚ
  sma50 : Option ℚ
  rsi : ℚ
  macd : ℚ
  newsSentiment : ℚ
  marketSentiment : ℚ
  portfolioValue : ℚ
  positionSize : ℚ
  unrealizedPnL : ℚ
deriving DecidableEq, Repr

/-- create_rl_state(row, prev_close) with the two np.random.uniform draws made
explicit arguments.  float() of a NaN SMA stays NaN, hence the Option
pass-through for sma20 and sma50; rsi, macd and volatility get the source's
explicit NaN substitutes 50, 0 and 0.5. -/
def create_rl_state (row : Row) (prev_close news market : ℚ) : DecisionState :=
  { price := row.close
    priceChange := if 0 < prev_close then (row.close - prev_close) / prev_close * 100 else 0
    volume := row.volume / 1000000000
    volatility := row.volatility.getD (1 / 2)
    sma20 := row.sma20
    sma50 := row.sma50
    rsi := row.rsi.getD 50
    macd := row.macd.getD 0
    newsSentiment := news
    marketSentiment := market
    portfolioValue := 10000
    positionSize := 0
    unrealizedPnL := 0 }

/-- A recorded trade dict; buys carry no pnl key. -/
inductive Trade where
  | buy (price : ℚ) (date : ℕ)
  | sell (price : ℚ) (pnl : ℚ) (date : ℕ)
deriving DecidableEq, Repr

/-- The three-way action of the fixed rule. -/
inductive TradeAction where
  | buy
  | sell
  | hold
deriving DecidableEq, Repr

/-- The decision rule of simulate_episode, in source priority order. -/
def decideAction (st : DecisionState) : TradeAction :=
  if st.rsi < 30 ∧ 0 < st.macd then TradeAction.buy
  else if 70 < st.rsi ∨ st.macd < 0 then TradeAction.sell
  else TradeAction.hold

/-- The mutable locals of one simulate_episode call. -/
structure SimState where
  portfolioValue : ℚ
  position : ℚ
  entryPrice : ℚ
  trades : List Trade
deriving DecidableEq, Repr

/-- Initial locals: portfolio_value = 10000, position = 0,
position_entry_price = 0, trades = []. -/
def initState : SimState := ⟨10000, 0, 0, []⟩

/-- The execute-trade block: a buy only fires while flat (position == 0) and
does not touch portfolio_value; a sell only fires while long (position gt 0),
realizes pnl into portfolio_value and clears the position; every other
combination leaves the locals untouched. -/
def applyAction (s : SimState) (row : Row) (a : TradeAction) : SimState :=
  if a = TradeAction.buy ∧ s.position = 0 then
    { s with position := s.portfolioValue * (95 / 100) / row.close
             entryPrice := row.close
             trades := s.trades ++ [Trade.buy row.close row.date] }
  else if a = TradeAction.sell ∧ 0 < s.position then
    { s with portfolioValue := s.portfolioValue + (row.close - s.entryPrice) * s.position
             trades := s.trades ++ [Trade.sell row.close ((row.close - s.entryPrice) * s.position) row.date]
             position := 0
             entryPrice := 0 }
  else s

/-- One iteration of the decision loop at a bar: build the state, decide,
execute. -/
def stepOnce (s : SimState) (row : Row) (prev_close : ℚ) (nz : ℚ × ℚ) : SimState :=
  applyAction s row (decideAction (create_rl_state row prev_close nz.1 nz.2))

/-- The loop for i in range(len(df) - 1), carrying the previous close; the
last row is never a decision point. -/
def simFrom (noise : ℕ → ℚ × ℚ) : ℕ → ℚ → List Row → SimState → SimState
  | _, _, [], s => s
  | _, _, [_], s => s
  | i, pc, r :: r2 :: rest, s =>
      simFrom noise (i + 1) r.close (r2 :: rest) (stepOnce s r pc (noise i))

/-- The whole decision loop of simulate_episode; at i = 0 the previous close
is the first row's own close. -/
def simLoop (df : List Row) (noise : ℕ → ℚ × ℚ) : SimState :=
  match df with
  | [] => initState
  | r :: rest => simFrom noise 0 r.close (r :: rest) initState

/-- Ghost observer of the same loop: the DecisionState built at each bar
paired with the simulator locals at the moment of its construction.  It
re-walks exactly the iterations of simFrom. -/
def simTraceFrom (noise : ℕ → ℚ × ℚ) : ℕ → ℚ → List Row → SimState → List (DecisionState × SimState)
  | _, _, [], _ => []
  | _, _, [_], _ => []
  | i, pc, r :: r2 :: rest, s =>
      (create_rl_state r pc (noise i).1 (noise i).2, s) ::
        simTraceFrom noise (i + 1) r.close (r2 :: rest) (stepOnce s r pc (noise i))

/-- The per-bar (DecisionState, simulator locals) trace of one episode. -/
def simTrace (df : List Row) (noise : ℕ → ℚ × ℚ) : List (DecisionState × SimState) :=
  match df with
  | [] => []
  | r :: rest => simTraceFrom noise 0 r.close (r :: rest) initState

/-- The close used by the forced close, df.iloc[-1].Close.  The source indexes
it only under position gt 0, which forces a nonempty df; the getD default is
unreachable there. -/
def lastCloseD (df : List Row) : ℚ := ((df.getLast?).map Row.close).getD 0

/-- The post-loop block: if still long, realize (last close - entry) * position
into portfolio_value; no trade is recorded, and (as in the source) the
position and entry locals are not cleared - they are dead after this point. -/
def forceClose (df : List Row) (s : SimState) : SimState :=
  if 0 < s.position then
    { s with portfolioValue := s.portfolioValue + (lastCloseD df - s.entryPrice) * s.position }
  else s

/-- Locals after the loop plus the forced close. -/
def runEpisode (df : List Row) (noise : ℕ → ℚ × ℚ) : SimState :=
  forceClose df (simLoop df noise)

/-- A trade dict carrying a pnl key, i.e. a sell. -/
def isSell : Trade → Bool
  | Trade.sell _ _ _ => true
  | Trade.buy _ _ => false

/-- t.get(pnl, 0) gt 0: a sell with positive pnl (buys default to 0). -/
def isWin : Trade → Bool
  | Trade.sell _ pnl _ => decide (0 < pnl)
  | Trade.buy _ _ => false

/-- The win_rate expression: guarded only by trades being nonempty, it divides
by the number of sell trades; a nonempty trades list with no sell raises
ZeroDivisionError, modelled as none. -/
def winRateOpt (trades : List Trade) : Option ℚ :=
  if trades = [] then some 0
  else if (trades.filter isSell).length = 0 then none
  else some (((trades.filter isWin).length : ℚ) / ((trades.filter isSell).length : ℚ) * 100)

/-- The result dict of one episode. -/
structure EpisodeResult where
  episode : ℕ
  totalTrades : ℕ
  portfolioValue : ℚ
  totalReturn : ℚ
  winRate : ℚ
  trades : List Trade
deriving DecidableEq, Repr

/-- simulate_episode(df, episode_num): run the loop and the forced close, then
assemble the metrics; none models the ZeroDivisionError of the win-rate
expression. -/
def simulate_episode (df : List Row) (episode_num : ℕ) (noise : ℕ → ℚ × ℚ) : Option EpisodeResult :=
  match winRateOpt (runEpisode df noise).trades with
  | none => none
  | some wr =>
      some { episode := episode_num
             totalTrades := (runEpisode df noise).trades.length
             portfolioValue := (runEpisode df noise).portfolioValue
             totalReturn := ((runEpisode df noise).portfolioValue - 10000) / 10000 * 100
             winRate := wr
             trades := (runEpisode df noise).trades }

/-- The summary assembled by train_rl_model (the out-of-scope symbol, date and
file-sink fields are dropped; the metric fields and the tracked best are
kept). -/
structure TrainingSummary where
  episodeCount : ℕ
  averageReturn : ℚ
  averageWinRate : ℚ
  averageTrades : ℚ
  bestEpisode : Option EpisodeResult
  allResults : List EpisodeResult
deriving DecidableEq, Repr

/-- The best-episode fold step: best_return starts at -inf (acc = none), so
the first result always wins; afterwards only a strictly greater totalReturn
replaces the incumbent, hence first-seen wins ties. -/
def pickBest (acc : Option EpisodeResult) (r : EpisodeResult) : Option EpisodeResult :=
  match acc with
  | none => some r
  | some b => if b.totalReturn < r.totalReturn then some r else some b

/-- The running best over the episode loop. -/
def bestOf (rs : List EpisodeResult) : Option EpisodeResult := rs.foldl pickBest none

/-- for episode in range(1, episodes + 1): results.append(simulate_episode(df,
episode)); a raise in any episode aborts the whole run (none).  The noise
stream is indexed per episode then per bar. -/
def runEpisodes (df : List Row) (noise : ℕ → ℕ → ℚ × ℚ) : ℕ → Option (List EpisodeResult)
  | 0 => some []
  | n + 1 =>
      match runEpisodes df noise n, simulate_episode df (n + 1) (noise n) with
      | some rs, some r => some (rs ++ [r])
      | _, _ => none

/-- train_rl_model over an already-computed indicator frame: run the episodes,
track the best, and average the three metric columns with np.mean =
sum / length. -/
def train_rl_model (df : List Row) (noise : ℕ → ℕ → ℚ × ℚ) (episodes : ℕ) : Option TrainingSummary :=
  match runEpisodes df noise episodes with
  | none => none
  | some rs =>
      some { episodeCount := episodes
             averageReturn := (rs.map EpisodeResult.totalReturn).sum / (rs.length : ℚ)
             averageWinRate := (rs.map EpisodeResult.winRate).sum / (rs.length : ℚ)
             averageTrades := ((rs.map EpisodeResult.totalTrades).sum : ℚ) / (rs.length : ℚ)
             bestEpisode := bestOf rs
             allResults := rs }

/-- Sum of the pnl fields of the recorded sell trades. -/
def sumSellPnl : List Trade → ℚ
  | [] => 0
  | Trade.buy _ _ :: ts => sumSellPnl ts
  | Trade.sell _ pnl _ :: ts => pnl + sumSellPnl ts

/-- A constant noise stream (concrete inputs below never read it anyway). -/
def noise0 : ℕ → ℚ × ℚ := fun _ => (0, 0)

/-- A constant per-episode noise stream. -/
def noiseE : ℕ → ℕ → ℚ × ℚ := fun _ _ => (0, 0)

/-- A row whose indicators trigger the buy branch: rsi 20 lt 30 and macd 1 gt 0. -/
def rowBuy : Row :=
  { date := 0, close := 100, volume := 0, sma20 := some 100, sma50 := some 100
    rsi := some 20, macd := some 1, volatility := some 0 }

/-- A row whose indicators trigger hold: rsi 50, macd 1. -/
def rowHold : Row :=
  { date := 1, close := 100, volume := 0, sma20 := some 100, sma50 := some 100
    rsi := some 50, macd := some 1, volatility := some 0 }





/-! Helper lemmas shared across the claim theorems. -/

/-- The forced close never touches the recorded trades. -/
theorem forceClose_trades (df : List Row) (s : SimState) : (forceClose df s).trades = s.trades := by
  unfold forceClose
  split <;> rfl

/-- One loop iteration is blind to the two random draws: they populate only
the two sentiment fields, which neither the rule nor the execution reads. -/
theorem stepOnce_noise_blind (s : SimState) (r : Row) (pc : ℚ) (a b : ℚ × ℚ) :
    stepOnce s r pc a = stepOnce s r pc b := rfl

/-- The whole loop is blind to the noise stream. -/
theorem simFrom_noise_blind (n1 n2 : ℕ → ℚ × ℚ) :
    ∀ (df : List Row) (i : ℕ) (pc : ℚ) (s : SimState),
      simFrom n1 i pc df s = simFrom n2 i pc df s
  | [], _, _, _ => rfl
  | [_], _, _, _ => rfl
  | r :: r2 :: rest, i, pc, s => by
      simp only [simFrom]
      rw [stepOnce_noise_blind s r pc (n1 i) (n2 i)]
      exact simFrom_noise_blind n1 n2 (r2 :: rest) (i + 1) r.close _

/-- Appending one trade adds its pnl contribution (sells their pnl, buys 0). -/
theorem sumSellPnl_append (ts : List Trade) (t : Trade) :
    sumSellPnl (ts ++ [t])
      = sumSellPnl ts + (match t with | Trade.sell _ pnl _ => pnl | Trade.buy _ _ => 0) := by
  induction ts with
  | nil => cases t <;> simp [sumSellPnl]
  | cons h ts ih =>
      cases h with
      | buy p d => simp [sumSellPnl, ih]
      | sell p pnl d =>
          simp [sumSellPnl, ih]
          ring

/-- Each iteration moves portfolio_value by exactly the pnl it records. -/
theorem stepOnce_portfolio_frame (s : SimState) (r : Row) (pc : ℚ) (nz : ℚ × ℚ) :
    (stepOnce s r pc nz).portfolioValue - s.portfolioValue
      = sumSellPnl (stepOnce s r pc nz).trades - sumSellPnl s.trades := by
  unfold stepOnce applyAction
  split
  · simp [sumSellPnl_append]
  · split
    · simp [sumSellPnl_append]
    · simp

/-- Loop invariant: portfolio_value minus the recorded sell pnls is constant. -/
theorem simFrom_portfolio_invariant (noise : ℕ → ℚ × ℚ) :
    ∀ (df : List Row) (i : ℕ) (pc : ℚ) (s : SimState),
      (simFrom noise i pc df s).portfolioValue - sumSellPnl (simFrom noise i pc df s).trades
        = s.portfolioValue - sumSellPnl s.trades
  | [], _, _, _ => rfl
  | [_], _, _, _ => rfl
  | r :: r2 :: rest, i, pc, s => by
      simp only [simFrom]
      rw [simFrom_portfolio_invariant noise (r2 :: rest) (i + 1) r.close (stepOnce s r pc (noise i))]
      have h := stepOnce_portfolio_frame s r pc (noise i)
      linarith

/-! Claim theorems. -/

/-- C1 (code bug): an episode whose trade list contains a buy but no sell
(the position is closed only by the unrecorded forced close) reaches the
win-rate expression with a nonempty trades list and a zero count of
pnl-carrying trades, so len(win_trades) / len(sell_trades) raises
ZeroDivisionError (modelled as none) instead of yielding the claimed 0. -/
theorem C1_buy_without_sell_divides_by_zero :
    simulate_episode [rowBuy, rowHold] 1 noise0 = none := by
  norm_num [simulate_episode, runEpisode, simLoop, simFrom, stepOnce, applyAction, decideAction,
    create_rl_state, initState, rowBuy, rowHold, winRateOpt, forceClose, lastCloseD, noise0,
    isSell, isWin]

/-- C2 counterexample: at bar 1 of this three-bar frame the simulator's
running position is 95 shares, yet the DecisionState built for that bar
carries positionSize 0 - the snapshot fields are not the running totals. -/
theorem C2_counterexample :
    ((simTrace [rowBuy, rowHold, rowHold] noise0).get? 1).map
      (fun p => (p.1.positionSize, p.2.position)) = some (0, 95) ∧ (0 : ℚ) ≠ 95 := by
  constructor
  · norm_num [simTrace, simTraceFrom, stepOnce, applyAction, decideAction, create_rl_state,
      initState, rowBuy, rowHold, noise0]
  · norm_num

/-- C2 (amended): the DecisionState built for every bar carries the fixed
constants 10000, 0 and 0 in its portfolioValue, positionSize and
unrealizedPnL fields, regardless of the simulator's running totals. -/
theorem C2_amended_constant_snapshot (row : Row) (pc news market : ℚ) :
    (create_rl_state row pc news market).portfolioValue = 10000 ∧
    (create_rl_state row pc news market).positionSize = 0 ∧
    (create_rl_state row pc news market).unrealizedPnL = 0 :=
  ⟨rfl, rfl, rfl⟩

/-- C3: two runs over the same indicator frame that differ only in the random
draws for newsSentiment and marketSentiment return identical EpisodeResults -
in particular identical totalTrades, trade type/price/date lists,
finalPortfolioValue, totalReturnPercent and winRatePercent. -/
theorem C3_noise_independent (df : List Row) (ep : ℕ) (n1 n2 : ℕ → ℚ × ℚ) :
    simulate_episode df ep n1 = simulate_episode df ep n2 := by
  have h : simLoop df n1 = simLoop df n2 := by
    cases df with
    | nil => rfl
    | cons r rest => exact simFrom_noise_blind n1 n2 (r :: rest) 0 r.close initState
  unfold simulate_episode runEpisode
  rw [h]

/-- C5: if the loop ends still long, the forced close adjusts only
portfolio_value by (final close - entry) * position and appends no trade
record; otherwise nothing changes; and every returned result has totalTrades
equal to the length of its recorded trades sequence, which is exactly the
loop's sequence (the forced close adds nothing to it). -/
theorem C5_forced_close (df : List Row) (ep : ℕ) (noise : ℕ → ℚ × ℚ) :
    (0 < (simLoop df noise).position →
      runEpisode df noise =
        { simLoop df noise with
            portfolioValue := (simLoop df noise).portfolioValue +
              (lastCloseD df - (simLoop df noise).entryPrice) * (simLoop df noise).position }) ∧
    (¬ 0 < (simLoop df noise).position → runEpisode df noise = simLoop df noise) ∧
    (∀ r, simulate_episode df ep noise = some r →
      r.totalTrades = r.trades.length ∧ r.trades = (simLoop df noise).trades) := by
  refine ⟨fun h => ?_, fun h => ?_, fun r hr => ?_⟩
  · unfold runEpisode forceClose
    rw [if_pos h]
  · unfold runEpisode forceClose
    rw [if_neg h]
  · unfold simulate_episode at hr
    cases hw : winRateOpt (runEpisode df noise).trades with
    | none => rw [hw] at hr; cases hr
    | some wr =>
        rw [hw] at hr
        have hrec := (Option.some.injEq _ _).mp hr
        subst hrec
        exact ⟨rfl, (forceClose_trades df (simLoop df noise)).symm ▸ rfl⟩

/-- C5 witness: a concrete episode that ends long (one buy, never sold). -/
theorem C5_witness :
    0 < (simLoop [rowBuy, rowHold] noise0).position ∧
    runEpisode [rowBuy, rowHold] noise0 =
      { simLoop [rowBuy, rowHold] noise0 with
          portfolioValue := (simLoop [rowBuy, rowHold] noise0).portfolioValue +
            (lastCloseD [rowBuy, rowHold] - (simLoop [rowBuy, rowHold] noise0).entryPrice) *
              (simLoop [rowBuy, rowHold] noise0).position } :=
  ⟨by norm_num [simLoop, simFrom, stepOnce, applyAction, decideAction, create_rl_state,
      initState, rowBuy, rowHold, noise0],
   (C5_forced_close [rowBuy, rowHold] 1 noise0).1
     (by norm_num [simLoop, simFrom, stepOnce, applyAction, decideAction, create_rl_state,
       initState, rowBuy, rowHold, noise0])⟩

/-- C6: the action is buy iff rsi lt 30 and macd gt 0, else sell iff rsi gt 70
or macd lt 0, else hold; a buy while flat opens a position of
0.95 * portfolioValue / close at entry price close and appends a buy trade, a
sell while long realizes (close - entry) * position into portfolioValue,
appends a sell trade and clears the position, and every other combination
changes no state and records no trade. -/
theorem C6_decision_rule (s : SimState) (r : Row) (pc : ℚ) (nz : ℚ × ℚ) :
    (r.rsi.getD 50 < 30 ∧ 0 < r.macd.getD 0 →
      stepOnce s r pc nz =
        if s.position = 0 then
          { s with position := s.portfolioValue * (95 / 100) / r.close
                   entryPrice := r.close
                   trades := s.trades ++ [Trade.buy r.close r.date] }
        else s) ∧
    (¬(r.rsi.getD 50 < 30 ∧ 0 < r.macd.getD 0) →
      (70 < r.rsi.getD 50 ∨ r.macd.getD 0 < 0) →
      stepOnce s r pc nz =
        if 0 < s.position then
          { s with portfolioValue := s.portfolioValue + (r.close - s.entryPrice) * s.position
                   trades := s.trades ++
                     [Trade.sell r.close ((r.close - s.entryPrice) * s.position) r.date]
                   position := 0
                   entryPrice := 0 }
        else s) ∧
    (¬(r.rsi.getD 50 < 30 ∧ 0 < r.macd.getD 0) →
      ¬(70 < r.rsi.getD 50 ∨ r.macd.getD 0 < 0) →
      stepOnce s r pc nz = s) := by
  have hrsi : (create_rl_state r pc nz.1 nz.2).rsi = r.rsi.getD 50 := rfl
  have hmacd : (create_rl_state r pc nz.1 nz.2).macd = r.macd.getD 0 := rfl
  refine ⟨fun hb => ?_, fun hnb hs => ?_, fun hnb hns => ?_⟩
  · have ha : decideAction (create_rl_state r pc nz.1 nz.2) = TradeAction.buy := by
      unfold decideAction
      rw [hrsi, hmacd, if_pos hb]
    unfold stepOnce
    rw [ha]
    unfold applyAction
    by_cases hp : s.position = 0
    · rw [if_pos ⟨rfl, hp⟩, if_pos hp]
    · rw [if_neg (fun hc => hp hc.2), if_neg hp,
        if_neg (fun hc => TradeAction.noConfusion hc.1)]
  · have ha : decideAction (create_rl_state r pc nz.1 nz.2) = TradeAction.sell := by
      unfold decideAction
      rw [hrsi, hmacd, if_neg hnb, if_pos hs]
    unfold stepOnce
    rw [ha]
    unfold applyAction
    by_cases hp : 0 < s.position
    · rw [if_neg (fun hc => TradeAction.noConfusion hc.1), if_pos ⟨rfl, hp⟩, if_pos hp]
    · rw [if_neg (fun hc => TradeAction.noConfusion hc.1), if_neg (fun hc => hp hc.2), if_neg hp]
  · have ha : decideAction (create_rl_state r pc nz.1 nz.2) = TradeAction.hold := by
      unfold decideAction
      rw [hrsi, hmacd, if_neg hnb, if_neg hns]
    unfold stepOnce
    rw [ha]
    unfold applyAction
    rw [if_neg (fun hc => TradeAction.noConfusion hc.1),
      if_neg (fun hc => TradeAction.noConfusion hc.1)]

/-- C6 witness: the buy branch fires on a concrete flat state and buy row. -/
theorem C6_witness :
    (rowBuy.rsi.getD 50 < 30 ∧ 0 < rowBuy.macd.getD 0) ∧
    stepOnce initState rowBuy 100 (0, 0) =
      { initState with position := 95, entryPrice := 100, trades := [Trade.buy 100 0] } := by
  refine ⟨by norm_num [rowBuy], ?_⟩
  rw [(C6_decision_rule initState rowBuy 100 (0, 0)).1 (by norm_num [rowBuy])]
  norm_num [initState, rowBuy]

/-- C7: a frame with fewer than two rows degenerates the loop to zero
iterations and returns the well-formed all-zero EpisodeResult instead of
raising. -/
theorem C7_short_series (df : List Row) (ep : ℕ) (noise : ℕ → ℚ × ℚ) (h : df.length < 2) :
    simulate_episode df ep noise =
      some { episode := ep, totalTrades := 0, portfolioValue := 10000, totalReturn := 0,
             winRate := 0, trades := [] } := by
  match df, h with
  | [], _ =>
      norm_num [simulate_episode, runEpisode, simLoop, initState, winRateOpt, forceClose]
  | [r], _ =>
      norm_num [simulate_episode, runEpisode, simLoop, simFrom, initState, winRateOpt, forceClose]

/-- C7 witness: the single-row frame. -/
theorem C7_witness :
    ([rowHold] : List Row).length < 2 ∧
    simulate_episode [rowHold] 7 noise0 =
      some { episode := 7, totalTrades := 0, portfolioValue := 10000, totalReturn := 0,
             winRate := 0, trades := [] } :=
  ⟨by norm_num, C7_short_series [rowHold] 7 noise0 (by norm_num)⟩

/-- C10: portfolio_value is moved only by realized pnl - each iteration
changes it by exactly the sell pnl it records (hence a buy or hold leaves it
untouched) - and the final portfolio value is 10000 plus the pnls of the
recorded sells plus the pnl of the at most one unrecorded forced close. -/
theorem C10_portfolio_accounting (df : List Row) (noise : ℕ → ℚ × ℚ) :
    ((runEpisode df noise).portfolioValue
        = 10000 + sumSellPnl (simLoop df noise).trades
            + (if 0 < (simLoop df noise).position then
                 (lastCloseD df - (simLoop df noise).entryPrice) * (simLoop df noise).position
               else 0)) ∧
    (∀ (s : SimState) (r : Row) (pc : ℚ) (nz : ℚ × ℚ),
      (stepOnce s r pc nz).portfolioValue - s.portfolioValue
        = sumSellPnl (stepOnce s r pc nz).trades - sumSellPnl s.trades) := by
  constructor
  · have hloop : (simLoop df noise).portfolioValue - sumSellPnl (simLoop df noise).trades
        = 10000 := by
      unfold simLoop
      cases df with
      | nil => norm_num [initState, sumSellPnl]
      | cons r rest =>
          rw [simFrom_portfolio_invariant noise (r :: rest) 0 r.close initState]
          norm_num [initState, sumSellPnl]
    unfold runEpisode forceClose
    by_cases hpos : 0 < (simLoop df noise).position
    · simp only [if_pos hpos]
      linarith
    · simp only [if_neg hpos]
      linarith
  · exact stepOnce_portfolio_frame

/-! Monotone-series RSI helpers. -/

/-- Gains are nonnegative by construction. -/
theorem gainAt_nonneg (closes : List ℚ) (j : ℕ) : 0 ≤ gainAt closes j := by
  unfold gainAt
  split
  · split
    · rename_i hd
      exact le_of_lt hd
    · exact le_refl 0
  · exact le_refl 0

/-- Losses are nonnegative by construction. -/
theorem lossAt_nonneg (closes : List ℚ) (j : ℕ) : 0 ≤ lossAt closes j := by
  unfold lossAt
  split
  · split
    · rename_i hd
      linarith
    · exact le_refl 0
  · exact le_refl 0

/-- On a strictly increasing series every loss entry is 0 (row 0 by the
where-semantics of the NaN delta, later rows because the delta is positive). -/
theorem lossAt_eq_zero_incr (closes : List ℚ)
    (hm : ∀ i, i + 1 < closes.length → closes.getD i 0 < closes.getD (i + 1) 0)
    (j : ℕ) (hj : j < closes.length) : lossAt closes j = 0 := by
  unfold lossAt deltaAt
  by_cases h0 : j = 0
  · rw [if_pos h0]
  · rw [if_neg h0]
    have hd : 0 < closeAt closes j - closeAt closes (j - 1) := by
      obtain ⟨k, rfl⟩ := Nat.exists_eq_succ_of_ne_zero h0
      have := hm k (by omega)
      unfold closeAt
      simp only [Nat.succ_sub_one]
      linarith
    show (if closeAt closes j - closeAt closes (j - 1) < 0
          then -(closeAt closes j - closeAt closes (j - 1)) else 0) = 0
    rw [if_neg (by linarith)]

/-- On a strictly increasing series every gain entry past row 0 is positive. -/
theorem gainAt_pos_incr (closes : List ℚ)
    (hm : ∀ i, i + 1 < closes.length → closes.getD i 0 < closes.getD (i + 1) 0)
    (j : ℕ) (h0 : j ≠ 0) (hj : j < closes.length) : 0 < gainAt closes j := by
  unfold gainAt deltaAt
  rw [if_neg h0]
  have hd : 0 < closeAt closes j - closeAt closes (j - 1) := by
    obtain ⟨k, rfl⟩ := Nat.exists_eq_succ_of_ne_zero h0
    have := hm k (by omega)
    unfold closeAt
    simp only [Nat.succ_sub_one]
    linarith
  show 0 < (if 0 < closeAt closes j - closeAt closes (j - 1)
            then closeAt closes j - closeAt closes (j - 1) else 0)
  rw [if_pos hd]
  exact hd

/-- On a strictly decreasing series every gain entry is 0. -/
theorem gainAt_eq_zero_decr (closes : List ℚ)
    (hm : ∀ i, i + 1 < closes.length → closes.getD (i + 1) 0 < closes.getD i 0)
    (j : ℕ) (hj : j < closes.length) : gainAt closes j = 0 := by
  unfold gainAt deltaAt
  by_cases h0 : j = 0
  · rw [if_pos h0]
  · rw [if_neg h0]
    have hd : closeAt closes j - closeAt closes (j - 1) < 0 := by
      obtain ⟨k, rfl⟩ := Nat.exists_eq_succ_of_ne_zero h0
      have := hm k (by omega)
      unfold closeAt
      simp only [Nat.succ_sub_one]
      linarith
    show (if 0 < closeAt closes j - closeAt closes (j - 1)
          then closeAt closes j - closeAt closes (j - 1) else 0) = 0
    rw [if_neg (by linarith)]

/-- On a strictly decreasing series every loss entry past row 0 is positive. -/
theorem lossAt_pos_decr (closes : List ℚ)
    (hm : ∀ i, i + 1 < closes.length → closes.getD (i + 1) 0 < closes.getD i 0)
    (j : ℕ) (h0 : j ≠ 0) (hj : j < closes.length) : 0 < lossAt closes j := by
  unfold lossAt deltaAt
  rw [if_neg h0]
  have hd : closeAt closes j - closeAt closes (j - 1) < 0 := by
    obtain ⟨k, rfl⟩ := Nat.exists_eq_succ_of_ne_zero h0
    have := hm k (by omega)
    unfold closeAt
    simp only [Nat.succ_sub_one]
    linarith
  show 0 < (if closeAt closes j - closeAt closes (j - 1) < 0
            then -(closeAt closes j - closeAt closes (j - 1)) else 0)
  rw [if_pos hd]
  linarith

/-- C8: on any in-range row the computed RSI is undefined before row 13; on a
strictly monotonically increasing close series it equals 100 (the zero-loss
sentinel arising from the +inf ratio) at every defined point, and on a
strictly monotonically decreasing series it equals 0 at every defined point. -/
theorem C8_rsi_monotone (closes : List ℚ) :
    (∀ i, i < 13 → rsiAt closes i = none) ∧
    ((∀ i, i + 1 < closes.length → closes.getD i 0 < closes.getD (i + 1) 0) →
      ∀ i, 13 ≤ i → i < closes.length → rsiAt closes i = some 100) ∧
    ((∀ i, i + 1 < closes.length → closes.getD (i + 1) 0 < closes.getD i 0) →
      ∀ i, 13 ≤ i → i < closes.length → rsiAt closes i = some 0) := by
  refine ⟨fun i hi => ?_, fun hm i h13 hlen => ?_, fun hm i h13 hlen => ?_⟩
  · unfold rsiAt
    rw [if_neg (by omega)]
  · unfold rsiAt
    rw [if_pos h13]
    have hL : (∑ k ∈ Finset.range 14, lossAt closes (i - k)) = 0 :=
      Finset.sum_eq_zero fun k _ => lossAt_eq_zero_incr closes hm (i - k) (by omega)
    have hG : 0 < (∑ k ∈ Finset.range 14, gainAt closes (i - k)) := by
      apply Finset.sum_pos'
      · exact fun k _ => gainAt_nonneg closes (i - k)
      · refine ⟨0, Finset.mem_range.mpr (by omega), ?_⟩
        rw [Nat.sub_zero]
        exact gainAt_pos_incr closes hm i (by omega) hlen
    unfold rsiOf
    rw [if_pos (by rw [hL]; norm_num), if_neg (ne_of_gt (div_pos hG (by norm_num)))]
  · unfold rsiAt
    rw [if_pos h13]
    have hG : (∑ k ∈ Finset.range 14, gainAt closes (i - k)) = 0 :=
      Finset.sum_eq_zero fun k _ => gainAt_eq_zero_decr closes hm (i - k) (by omega)
    have hL : 0 < (∑ k ∈ Finset.range 14, lossAt closes (i - k)) := by
      apply Finset.sum_pos'
      · exact fun k _ => lossAt_nonneg closes (i - k)
      · refine ⟨0, Finset.mem_range.mpr (by omega), ?_⟩
        rw [Nat.sub_zero]
        exact lossAt_pos_decr closes hm i (by omega) hlen
    unfold rsiOf
    rw [if_neg (ne_of_gt (div_pos hL (by norm_num)))]
    rw [hG]
    norm_num

/-- A concrete strictly increasing 15-close series. -/
def incr15 : List ℚ := [1, 2, 3, 4, 5, 6, 7, 8, 9, 10, 11, 12, 13, 14, 15]

/-- A concrete strictly decreasing 15-close series. -/
def decr15 : List ℚ := [15, 14, 13, 12, 11, 10, 9, 8, 7, 6, 5, 4, 3, 2, 1]

/-- C8 witness: both monotone branches instantiated at row 14 of concrete
15-row series. -/
theorem C8_witness :
    (∀ i, i + 1 < incr15.length → incr15.getD i 0 < incr15.getD (i + 1) 0) ∧
    rsiAt incr15 14 = some 100 ∧ rsiAt decr15 14 = some 0 := by
  have hinc : ∀ i, i + 1 < incr15.length → incr15.getD i 0 < incr15.getD (i + 1) 0 := by
    intro i hi
    simp only [incr15, List.length_cons, List.length_nil] at hi
    have hub : i ≤ 13 := by omega
    have hlb : 0 ≤ i := Nat.zero_le i
    interval_cases i <;> norm_num [incr15]
  have hdec : ∀ i, i + 1 < decr15.length → decr15.getD (i + 1) 0 < decr15.getD i 0 := by
    intro i hi
    simp only [decr15, List.length_cons, List.length_nil] at hi
    have hub : i ≤ 13 := by omega
    have hlb : 0 ≤ i := Nat.zero_le i
    interval_cases i <;> norm_num [decr15]
  refine ⟨hinc, ?_, ?_⟩
  · exact (C8_rsi_monotone incr15).2.1 hinc 14 (by norm_num) (by norm_num [incr15])
  · exact (C8_rsi_monotone decr15).2.2 hdec 14 (by norm_num) (by norm_num [decr15])

/-! Pipeline definedness helpers. -/

/-- SMA(w) is defined exactly from row w - 1 on. -/
theorem smaAt_isSome (w : ℕ) (closes : List ℚ) (i : ℕ) :
    (smaAt w closes i).isSome = true ↔ w - 1 ≤ i := by
  unfold smaAt
  split
  · rename_i h
    simp [h]
  · rename_i h
    simp [h]

/-- Volatility is defined exactly from row 20 on. -/
theorem volAt_isSome (closes : List ℚ) (i : ℕ) :
    (volAt closes i).isSome = true ↔ 20 ≤ i := by
  unfold volAt
  split
  · rename_i h
    simp [h]
  · rename_i h
    simp [h]

/-- RSI is defined at row i of the window range when some gain or loss entry
of its 14-row window is nonzero (the 0/0 NaN case is excluded). -/
theorem rsiAt_isSome_of (closes : List ℚ) (i : ℕ) (h13 : 13 ≤ i)
    (hne : ∃ k ∈ Finset.range 14, gainAt closes (i - k) + lossAt closes (i - k) ≠ 0) :
    (rsiAt closes i).isSome = true := by
  unfold rsiAt
  rw [if_pos h13]
  unfold rsiOf
  by_cases hL : (∑ k ∈ Finset.range 14, lossAt closes (i - k)) / 14 = 0
  · rw [if_pos hL]
    have hLsum : (∑ k ∈ Finset.range 14, lossAt closes (i - k)) = 0 := by
      rcases div_eq_zero_iff.mp hL with h | h
      · exact h
      · norm_num at h
    have hterm : ∀ k ∈ Finset.range 14, lossAt closes (i - k) = 0 :=
      (Finset.sum_eq_zero_iff_of_nonneg fun k _ => lossAt_nonneg closes (i - k)).mp hLsum
    obtain ⟨k, hk, hkne⟩ := hne
    have hgne : gainAt closes (i - k) ≠ 0 := by
      intro h0
      apply hkne
      rw [h0, hterm k hk]
      norm_num
    have hgpos : 0 < gainAt closes (i - k) :=
      lt_of_le_of_ne (gainAt_nonneg closes (i - k)) (Ne.symm hgne)
    have hGsum : 0 < ∑ k ∈ Finset.range 14, gainAt closes (i - k) :=
      Finset.sum_pos' (fun k _ => gainAt_nonneg closes (i - k)) ⟨k, hk, hgpos⟩
    rw [if_neg (ne_of_gt (div_pos hGsum (by norm_num)))]
    rfl
  · rw [if_neg hL]
    rfl

/-- The dropna test on row i of the augmented frame decides exactly 49 le i,
provided the RSI 0/0 case does not occur at such i. -/
theorem rowDefined_rowAt (bars : List PriceBar) (i : ℕ)
    (hrsi : 49 ≤ i → (rsiAt (bars.map PriceBar.close) i).isSome = true) :
    rowDefined (rowAt bars i) = decide (49 ≤ i) := by
  by_cases h : 49 ≤ i
  · simp only [rowDefined, rowAt]
    rw [decide_eq_true h]
    have h20 : (smaAt 20 (bars.map PriceBar.close) i).isSome = true :=
      (smaAt_isSome 20 _ i).mpr (by omega)
    have h50 : (smaAt 50 (bars.map PriceBar.close) i).isSome = true :=
      (smaAt_isSome 50 _ i).mpr (by omega)
    have hvol : (volAt (bars.map PriceBar.close) i).isSome = true :=
      (volAt_isSome _ i).mpr (by omega)
    rw [h20, h50, hrsi h, hvol]
    rfl
  · simp only [rowDefined, rowAt]
    rw [decide_eq_false h]
    have h50 : (smaAt 50 (bars.map PriceBar.close) i).isSome = false := by
      rw [Bool.eq_false_iff]
      intro hs
      exact h (by have h2 := (smaAt_isSome 50 (bars.map PriceBar.close) i).mp hs; omega)
    rw [h50]
    simp

/-- Length of the at-least-c filter over an index range. -/
theorem length_filter_range_ge (n c : ℕ) (h : c ≤ n) :
    ((List.range n).filter (fun i => decide (c ≤ i))).length = n - c := by
  have hsplit : n = c + (n - c) := by omega
  rw [hsplit, List.range_add, List.filter_append]
  have h1 : (List.range c).filter (fun i => decide (c ≤ i)) = [] := by
    rw [List.filter_eq_nil_iff]
    intro a ha
    have := List.mem_range.mp ha
    simp only [decide_eq_true_eq]
    omega
  have h2 : ((List.range (n - c)).map (c + ·)).filter (fun i => decide (c ≤ i))
      = (List.range (n - c)).map (c + ·) := by
    rw [List.filter_eq_self]
    intro a ha
    obtain ⟨b, _, rfl⟩ := List.mem_map.mp ha
    simp
  rw [h1, h2]
  simp

/-- C4 (amended): the dropna contract holds unconditionally - no output row
of the pipeline has an undefined derived field - and the claimed length
equation output = input - 49 holds provided every RSI window ending at a row
at least 49 contains a nonzero gain or loss entry (the RSI 0/0 NaN case does
not occur there); a constant series violates that proviso and gets an empty
output instead. -/
theorem C4_pipeline_length (bars : List PriceBar) :
    (∀ r ∈ calculate_technical_indicators bars, rowDefined r = true) ∧
    (49 ≤ bars.length →
      (∀ i, i < bars.length → 49 ≤ i →
        ∃ k ∈ Finset.range 14,
          gainAt (bars.map PriceBar.close) (i - k) + lossAt (bars.map PriceBar.close) (i - k) ≠ 0) →
      (calculate_technical_indicators bars).length = bars.length - 49) := by
  constructor
  · intro r hr
    exact (List.mem_filter.mp hr).2
  · intro h49 hmove
    unfold calculate_technical_indicators
    rw [List.filter_map, List.length_map]
    have hcongr : (List.range bars.length).filter (rowDefined ∘ rowAt bars)
        = (List.range bars.length).filter (fun i => decide (49 ≤ i)) := by
      apply List.filter_congr
      intro i hi
      have hilen := List.mem_range.mp hi
      show rowDefined (rowAt bars i) = decide (49 ≤ i)
      exact rowDefined_rowAt bars i fun h49i =>
        rsiAt_isSome_of (bars.map PriceBar.close) i (by omega) (hmove i hilen h49i)
    rw [hcongr, length_filter_range_ge bars.length 49 h49]

/-- C4 counterexample input: 50 bars, valid (dates strictly ascending, closes
constant positive 100). -/
def constBars50 : List PriceBar :=
  (List.range 50).map fun k =>
    { date := k, openPrice := 100, high := 100, low := 100, close := 100, volume := 1000000 }

/-- Closes of the constant frame. -/
theorem constBars50_closeAt (j : ℕ) (hj : j < 50) :
    closeAt (constBars50.map PriceBar.close) j = 100 := by
  unfold closeAt constBars50
  rw [List.map_map]
  show ((List.range 50).map fun _ => (100 : ℚ)).getD j 0 = 100
  rw [List.map_const', List.length_range, List.getD_eq_getElem?_getD,
    List.getElem?_replicate, if_pos hj]
  rfl

/-- Every in-range gain entry of the constant frame is 0. -/
theorem constBars50_gain_zero (j : ℕ) (hj : j < 50) :
    gainAt (constBars50.map PriceBar.close) j = 0 := by
  unfold gainAt deltaAt
  by_cases h0 : j = 0
  · rw [if_pos h0]
  · rw [if_neg h0]
    show (if 0 < closeAt (constBars50.map PriceBar.close) j -
              closeAt (constBars50.map PriceBar.close) (j - 1)
          then closeAt (constBars50.map PriceBar.close) j -
              closeAt (constBars50.map PriceBar.close) (j - 1) else 0) = 0
    rw [constBars50_closeAt j hj, constBars50_closeAt (j - 1) (by omega)]
    norm_num

/-- Every in-range loss entry of the constant frame is 0. -/
theorem constBars50_loss_zero (j : ℕ) (hj : j < 50) :
    lossAt (constBars50.map PriceBar.close) j = 0 := by
  unfold lossAt deltaAt
  by_cases h0 : j = 0
  · rw [if_pos h0]
  · rw [if_neg h0]
    show (if closeAt (constBars50.map PriceBar.close) j -
              closeAt (constBars50.map PriceBar.close) (j - 1) < 0
          then -(closeAt (constBars50.map PriceBar.close) j -
              closeAt (constBars50.map PriceBar.close) (j - 1)) else 0) = 0
    rw [constBars50_closeAt j hj, constBars50_closeAt (j - 1) (by omega)]
    norm_num

/-- RSI of the constant frame is the 0/0 NaN on every in-range row. -/
theorem constBars50_rsi_none (i : ℕ) (hi : i < 50) :
    rsiAt (constBars50.map PriceBar.close) i = none := by
  by_cases h13 : 13 ≤ i
  · unfold rsiAt
    rw [if_pos h13]
    unfold rsiOf
    have hG : (∑ k ∈ Finset.range 14, gainAt (constBars50.map PriceBar.close) (i - k)) = 0 :=
      Finset.sum_eq_zero fun k _ => constBars50_gain_zero (i - k) (by omega)
    have hL : (∑ k ∈ Finset.range 14, lossAt (constBars50.map PriceBar.close) (i - k)) = 0 :=
      Finset.sum_eq_zero fun k _ => constBars50_loss_zero (i - k) (by omega)
    rw [if_pos (by rw [hL]; norm_num), if_pos (by rw [hG]; norm_num)]
  · unfold rsiAt
    rw [if_neg h13]

/-- C4 counterexample: a valid 50-bar constant-close series has pipeline
output length 0, not input length - 49 = 1: the RSI 0/0 NaN makes dropna
remove every row. -/
theorem C4_counterexample :
    (calculate_technical_indicators constBars50).length = 0 ∧ constBars50.length - 49 = 1 := by
  have hlen : constBars50.length = 50 := by
    unfold constBars50
    rw [List.length_map, List.length_range]
  constructor
  · unfold calculate_technical_indicators
    rw [hlen, List.filter_map, List.length_map]
    have hnil : (List.range 50).filter (rowDefined ∘ rowAt constBars50) = [] := by
      rw [List.filter_eq_nil_iff]
      intro a ha
      have ha50 := List.mem_range.mp ha
      simp [Function.comp, rowDefined, rowAt, constBars50_rsi_none a ha50]
    rw [hnil]
    rfl
  · rw [hlen]

/-- C4 witness input: 50 bars with strictly increasing closes 100..149. -/
def incrBars50 : List PriceBar :=
  (List.range 50).map fun k =>
    { date := k, openPrice := 100 + (k : ℚ), high := 100 + (k : ℚ), low := 100 + (k : ℚ)
      close := 100 + (k : ℚ), volume := 1000000 }

/-- Closes of the increasing frame. -/
theorem incrBars50_closeAt (j : ℕ) (hj : j < 50) :
    closeAt (incrBars50.map PriceBar.close) j = 100 + (j : ℚ) := by
  unfold closeAt incrBars50
  rw [List.map_map]
  show ((List.range 50).map fun k : ℕ => (100 : ℚ) + (k : ℚ)).getD j 0 = 100 + (j : ℚ)
  rw [List.getD_eq_getElem?_getD, List.getElem?_map, List.getElem?_range hj]
  rfl

/-- C4 witness: on the increasing 50-bar frame the pipeline output length is
exactly input length - 49. -/
theorem C4_witness :
    49 ≤ incrBars50.length ∧
    (calculate_technical_indicators incrBars50).length = incrBars50.length - 49 := by
  have hlen : incrBars50.length = 50 := by
    unfold incrBars50
    rw [List.length_map, List.length_range]
  have hmove : ∀ i, i < incrBars50.length → 49 ≤ i →
      ∃ k ∈ Finset.range 14,
        gainAt (incrBars50.map PriceBar.close) (i - k) +
          lossAt (incrBars50.map PriceBar.close) (i - k) ≠ 0 := by
    intro i hi h49
    rw [hlen] at hi
    have hi49 : i = 49 := by omega
    subst hi49
    refine ⟨0, Finset.mem_range.mpr (by norm_num), ?_⟩
    rw [Nat.sub_zero]
    have hg : gainAt (incrBars50.map PriceBar.close) 49 = 1 := by
      unfold gainAt deltaAt
      rw [if_neg (by norm_num : ¬(49 : ℕ) = 0)]
      show (if 0 < closeAt (incrBars50.map PriceBar.close) 49 -
                closeAt (incrBars50.map PriceBar.close) (49 - 1)
            then closeAt (incrBars50.map PriceBar.close) 49 -
                closeAt (incrBars50.map PriceBar.close) (49 - 1) else 0) = 1
      rw [incrBars50_closeAt 49 (by norm_num), incrBars50_closeAt (49 - 1) (by norm_num)]
      norm_num
    have hl : lossAt (incrBars50.map PriceBar.close) 49 = 0 := by
      unfold lossAt deltaAt
      rw [if_neg (by norm_num : ¬(49 : ℕ) = 0)]
      show (if closeAt (incrBars50.map PriceBar.close) 49 -
                closeAt (incrBars50.map PriceBar.close) (49 - 1) < 0
            then -(closeAt (incrBars50.map PriceBar.close) 49 -
                closeAt (incrBars50.map PriceBar.close) (49 - 1)) else 0) = 0
      rw [incrBars50_closeAt 49 (by norm_num), incrBars50_closeAt (49 - 1) (by norm_num)]
      norm_num
    rw [hg, hl]
    norm_num
  exact ⟨by rw [hlen]; norm_num,
    (C4_pipeline_length incrBars50).2 (by rw [hlen]; norm_num) hmove⟩

/-! Aggregator helpers. -/

/-- A returned result carries the episode number it was called with. -/
theorem simulate_episode_episode (df : List Row) (ep : ℕ) (nz : ℕ → ℚ × ℚ) (r : EpisodeResult)
    (h : simulate_episode df ep nz = some r) : r.episode = ep := by
  unfold simulate_episode at h
  cases hw : winRateOpt (runEpisode df nz).trades with
  | none => rw [hw] at h; cases h
  | some wr =>
      rw [hw] at h
      have hr := (Option.some.injEq _ _).mp h
      rw [← hr]

/-- The episode loop produces, in order, the results of calling the simulator
with episode numbers 1..N. -/
theorem runEpisodes_spec (df : List Row) (noise : ℕ → ℕ → ℚ × ℚ) :
    ∀ (N : ℕ) (rs : List EpisodeResult), runEpisodes df noise N = some rs →
      rs.length = N ∧
      ∀ k, k < N → ∃ r, rs[k]? = some r ∧ simulate_episode df (k + 1) (noise k) = some r := by
  intro N
  induction N with
  | zero =>
      intro rs h
      have h0 := (Option.some.injEq _ _).mp h
      rw [← h0]
      exact ⟨rfl, fun k hk => absurd hk (by omega)⟩
  | succ n ih =>
      intro rs h
      unfold runEpisodes at h
      cases hprev : runEpisodes df noise n with
      | none => rw [hprev] at h; cases h
      | some rsp =>
          rw [hprev] at h
          cases hsim : simulate_episode df (n + 1) (noise n) with
          | none => rw [hsim] at h; cases h
          | some r =>
              rw [hsim] at h
              have hrs := (Option.some.injEq _ _).mp h
              rw [← hrs]
              obtain ⟨hlen, hget⟩ := ih rsp hprev
              constructor
              · rw [List.length_append, hlen]
                rfl
              · intro k hk
                by_cases hkn : k < n
                · obtain ⟨rk, hrk, hsimk⟩ := hget k hkn
                  refine ⟨rk, ?_, hsimk⟩
                  rw [List.getElem?_append_left (by omega : k < rsp.length)]
                  exact hrk
                · have hkeq : k = n := by omega
                  subst hkeq
                  refine ⟨r, ?_, hsim⟩
                  rw [← hlen]
                  exact List.getElem?_concat_length rsp r

/-- Unfolding of the fold step on a some accumulator. -/
theorem pickBest_some (b r : EpisodeResult) :
    pickBest (some b) r = if b.totalReturn < r.totalReturn then some r else some b := rfl

/-- The best fold starting from a some accumulator always yields a result. -/
theorem foldl_pickBest_isSome (l : List EpisodeResult) (a : EpisodeResult) :
    ∃ b, l.foldl pickBest (some a) = some b := by
  induction l generalizing a with
  | nil => exact ⟨a, rfl⟩
  | cons r l' ih =>
      show ∃ b, l'.foldl pickBest (pickBest (some a) r) = some b
      by_cases hlt : a.totalReturn < r.totalReturn
      · rw [pickBest_some, if_pos hlt]
        exact ih r
      · rw [pickBest_some, if_neg hlt]
        exact ih a

/-- Characterization of the best fold from accumulator a: either nothing beat
a, or the result is the first element strictly above a that no later element
strictly exceeds. -/
theorem foldl_pickBest_spec :
    ∀ (l : List EpisodeResult) (a b : EpisodeResult),
      l.foldl pickBest (some a) = some b →
      (b = a ∧ ∀ (j : ℕ) (r : EpisodeResult), l[j]? = some r → r.totalReturn ≤ a.totalReturn) ∨
      (a.totalReturn < b.totalReturn ∧ ∃ i, l[i]? = some b ∧
        (∀ (j : ℕ) (r : EpisodeResult), l[j]? = some r → r.totalReturn ≤ b.totalReturn) ∧
        (∀ (j : ℕ) (r : EpisodeResult), j < i → l[j]? = some r → r.totalReturn < b.totalReturn))
  | [], a, b, h => by
      left
      injection h with hab
      refine ⟨hab.symm, fun j r hj => ?_⟩
      rw [List.getElem?_nil] at hj
      cases hj
  | r :: l', a, b, h => by
      have hstep : l'.foldl pickBest (pickBest (some a) r) = some b := h
      by_cases hlt : a.totalReturn < r.totalReturn
      · rw [pickBest_some, if_pos hlt] at hstep
        rcases foldl_pickBest_spec l' r b hstep with ⟨hbr, hall⟩ | ⟨hrb, i, hi, hall, hfirst⟩
        · subst hbr
          right
          refine ⟨hlt, 0, List.getElem?_cons_zero, fun j rr hj => ?_, fun j rr hjlt hj => ?_⟩
          · cases j with
            | zero =>
                rw [List.getElem?_cons_zero] at hj
                injection hj with hj
                rw [← hj]
            | succ j' =>
                rw [List.getElem?_cons_succ] at hj
                exact hall j' rr hj
          · omega
        · right
          refine ⟨lt_trans hlt hrb, i + 1, by simpa using hi, fun j rr hj => ?_,
            fun j rr hjlt hj => ?_⟩
          · cases j with
            | zero =>
                rw [List.getElem?_cons_zero] at hj
                injection hj with hj
                rw [← hj]
                exact le_of_lt hrb
            | succ j' =>
                rw [List.getElem?_cons_succ] at hj
                exact hall j' rr hj
          · cases j with
            | zero =>
                rw [List.getElem?_cons_zero] at hj
                injection hj with hj
                rw [← hj]
                exact hrb
            | succ j' =>
                rw [List.getElem?_cons_succ] at hj
                exact hfirst j' rr (by omega) hj
      · rw [pickBest_some, if_neg hlt] at hstep
        rcases foldl_pickBest_spec l' a b hstep with ⟨hba, hall⟩ | ⟨hab, i, hi, hall, hfirst⟩
        · subst hba
          left
          refine ⟨rfl, fun j rr hj => ?_⟩
          cases j with
          | zero =>
              rw [List.getElem?_cons_zero] at hj
              injection hj with hj
              rw [← hj]
              exact not_lt.mp hlt
          | succ j' =>
              rw [List.getElem?_cons_succ] at hj
              exact hall j' rr hj
        · right
          refine ⟨hab, i + 1, by simpa using hi, fun j rr hj => ?_, fun j rr hjlt hj => ?_⟩
          · cases j with
            | zero =>
                rw [List.getElem?_cons_zero] at hj
                injection hj with hj
                rw [← hj]
                exact le_trans (not_lt.mp hlt) (le_of_lt hab)
            | succ j' =>
                rw [List.getElem?_cons_succ] at hj
                exact hall j' rr hj
          · cases j with
            | zero =>
                rw [List.getElem?_cons_zero] at hj
                injection hj with hj
                rw [← hj]
                exact lt_of_le_of_lt (not_lt.mp hlt) hab
            | succ j' =>
                rw [List.getElem?_cons_succ] at hj
                exact hfirst j' rr (by omega) hj

/-- The tracked best is the first-seen maximum of the result list. -/
theorem bestOf_spec (rs : List EpisodeResult) (b : EpisodeResult) (h : bestOf rs = some b) :
    ∃ i, rs[i]? = some b ∧
      (∀ (j : ℕ) (r : EpisodeResult), rs[j]? = some r → r.totalReturn ≤ b.totalReturn) ∧
      (∀ (j : ℕ) (r : EpisodeResult), j < i → rs[j]? = some r → r.totalReturn < b.totalReturn) := by
  cases rs with
  | nil => cases h
  | cons r0 l' =>
      have h' : l'.foldl pickBest (some r0) = some b := h
      rcases foldl_pickBest_spec l' r0 b h' with ⟨hbr, hall⟩ | ⟨hlt, i, hi, hall, hfirst⟩
      · subst hbr
        refine ⟨0, List.getElem?_cons_zero, fun j r hj => ?_, fun j r hjlt hj => ?_⟩
        · cases j with
          | zero =>
              rw [List.getElem?_cons_zero] at hj
              injection hj with hj
              rw [← hj]
          | succ j' =>
              rw [List.getElem?_cons_succ] at hj
              exact hall j' r hj
        · omega
      · refine ⟨i + 1, by simpa using hi, fun j r hj => ?_, fun j r hjlt hj => ?_⟩
        · cases j with
          | zero =>
              rw [List.getElem?_cons_zero] at hj
              injection hj with hj
              rw [← hj]
              exact le_of_lt hlt
          | succ j' =>
              rw [List.getElem?_cons_succ] at hj
              exact hall j' r hj
        · cases j with
          | zero =>
              rw [List.getElem?_cons_zero] at hj
              injection hj with hj
              rw [← hj]
              exact hlt
          | succ j' =>
              rw [List.getElem?_cons_succ] at hj
              exact hfirst j' r (by omega) hj

/-- C9: with at least one episode, the aggregator runs the simulator exactly
N times with episode numbers 1..N in order, selects as best the first-seen
maximum of totalReturn, and reports the three averages as arithmetic means
over all N results. -/
theorem C9_aggregator (df : List Row) (noise : ℕ → ℕ → ℚ × ℚ) (N : ℕ) (t : TrainingSummary)
    (hN : 1 ≤ N) (h : train_rl_model df noise N = some t) :
    t.allResults.length = N ∧
    (∀ k, k < N → ∃ r, t.allResults[k]? = some r ∧ r.episode = k + 1 ∧
      simulate_episode df (k + 1) (noise k) = some r) ∧
    (∃ b i, t.bestEpisode = some b ∧ t.allResults[i]? = some b ∧
      (∀ (j : ℕ) (r : EpisodeResult), t.allResults[j]? = some r → r.totalReturn ≤ b.totalReturn) ∧
      (∀ (j : ℕ) (r : EpisodeResult), j < i → t.allResults[j]? = some r → r.totalReturn < b.totalReturn)) ∧
    t.averageReturn = (t.allResults.map EpisodeResult.totalReturn).sum / (N : ℚ) ∧
    t.averageWinRate = (t.allResults.map EpisodeResult.winRate).sum / (N : ℚ) ∧
    t.averageTrades = ((t.allResults.map EpisodeResult.totalTrades).sum : ℚ) / (N : ℚ) := by
  unfold train_rl_model at h
  cases hrun : runEpisodes df noise N with
  | none => rw [hrun] at h; cases h
  | some rs =>
      rw [hrun] at h
      have ht := (Option.some.injEq _ _).mp h
      rw [← ht]
      obtain ⟨hlen, hget⟩ := runEpisodes_spec df noise N rs hrun
      refine ⟨hlen, ?_, ?_, ?_, ?_, ?_⟩
      · intro k hk
        obtain ⟨r, hr, hsim⟩ := hget k hk
        exact ⟨r, hr, simulate_episode_episode df (k + 1) (noise k) r hsim, hsim⟩
      · have hne : rs ≠ [] := by
          intro h0
          rw [h0] at hlen
          simp at hlen
          omega
        obtain ⟨r0, l', hcons⟩ := List.exists_cons_of_ne_nil hne
        subst hcons
        obtain ⟨b, hb⟩ := foldl_pickBest_isSome l' r0
        have hbest : bestOf (r0 :: l') = some b := hb
        obtain ⟨i, hi, hall, hfirst⟩ := bestOf_spec (r0 :: l') b hbest
        exact ⟨b, i, hbest, hi, hall, hfirst⟩
      · show (rs.map EpisodeResult.totalReturn).sum / (rs.length : ℚ)
            = (rs.map EpisodeResult.totalReturn).sum / (N : ℚ)
        rw [hlen]
      · show (rs.map EpisodeResult.winRate).sum / (rs.length : ℚ)
            = (rs.map EpisodeResult.winRate).sum / (N : ℚ)
        rw [hlen]
      · show ((rs.map EpisodeResult.totalTrades).sum : ℚ) / (rs.length : ℚ)
            = ((rs.map EpisodeResult.totalTrades).sum : ℚ) / (N : ℚ)
        rw [hlen]

/-- The single result of a one-episode run over the empty frame. -/
def epRes1 : EpisodeResult :=
  { episode := 1, totalTrades := 0, portfolioValue := 10000, totalReturn := 0, winRate := 0,
    trades := [] }

/-- The summary of that run. -/
def summary1 : TrainingSummary :=
  { episodeCount := 1, averageReturn := 0, averageWinRate := 0, averageTrades := 0,
    bestEpisode := some epRes1, allResults := [epRes1] }

/-- C9 witness: a concrete one-episode run hits the aggregator theorem. -/
theorem C9_witness :
    (1 : ℕ) ≤ 1 ∧ train_rl_model [] noiseE 1 = some summary1 ∧
    summary1.allResults.length = 1 :=
  ⟨le_refl 1,
   by norm_num [train_rl_model, runEpisodes, simulate_episode, runEpisode, simLoop, initState,
     winRateOpt, forceClose, bestOf, pickBest, noiseE, summary1, epRes1],
   (C9_aggregator [] noiseE 1 summary1 (le_refl 1)
     (by norm_num [train_rl_model, runEpisodes, simulate_episode, runEpisode, simLoop, initState,
       winRateOpt, forceClose, bestOf, pickBest, noiseE, summary1, epRes1])).1⟩
